import Mathlib

/-!
# Verification of the Golan-Concepts concurrency toolkit

Shallow embedding of the concurrency primitives of the repository:

* `SafeCounter`, `SafeQueue`, `ReadHeavyStruct` from
  `pkg/concurrency/concurrency-mutexes.go`;
* the generator and fan-in patterns from the concurrency-patterns file
  (`generatorWithBoring`, `fanIn`).

Every operation of these types holds its mutex for the whole body, so each
operation is atomic with respect to the others on the same instance.  A
concurrent execution is therefore modelled as a sequence of whole operations
(a schedule); the shared state is threaded explicitly.
-/

/-- Go's `int` is a 64-bit two's-complement integer; signed overflow wraps
around.  `wrapInt64` reduces an unbounded integer to the represented value
in `[-2^63, 2^63)`. -/
def wrapInt64 (x : Int) : Int :=
  (x + 2 ^ 63) % 2 ^ 64 - 2 ^ 63

/-! ## SafeCounter (concurrency-mutexes.go, lines 94-112) -/

/-- `SafeCounter` holds an `int` value guarded by a `sync.Mutex`.  The mutex
has no effect on the sequential semantics; the value is the whole state.
The Go zero value starts at 0. -/
structure SafeCounter where
  value : Int
  deriving Repr, DecidableEq

/-- The zero value `SafeCounter{}` used by the demo: value 0. -/
def SafeCounter.init : SafeCounter := ⟨0⟩

/-- `Increment` locks, does `c.value++`, unlocks.  Under the lock the whole
read-modify-write is one atomic step; the `int` addition wraps at `2^63`. -/
def SafeCounter.Increment (c : SafeCounter) : SafeCounter :=
  ⟨wrapInt64 (c.value + 1)⟩

/-- `Value` locks, returns `c.value`, unlocks. -/
def SafeCounter.Value (c : SafeCounter) : Int :=
  c.value

/-- Run a schedule of increments against a shared counter.  Each schedule
entry names the task (out of `n`) that performs its next `Increment`; since
`Increment` is atomic, any interleaving of the tasks is some such schedule. -/
def runIncrements {n : Nat} : List (Fin n) → SafeCounter → SafeCounter
  | [], c => c
  | _ :: rest, c => runIncrements rest c.Increment

/-! ## SafeQueue (concurrency-mutexes.go, lines 322-384) -/

/-- `SafeQueue` holds a slice of `int` guarded by a `sync.Mutex`. -/
structure SafeQueue where
  queue : List Int
  deriving Repr, DecidableEq

/-- The zero value `SafeQueue{}` used by `TestSafeQueue`: a nil slice. -/
def SafeQueue.init : SafeQueue := ⟨[]⟩

/-- `Enqueue` locks and appends the item: `sq.queue = append(sq.queue, item)`. -/
def SafeQueue.Enqueue (sq : SafeQueue) (item : Int) : SafeQueue :=
  ⟨sq.queue ++ [item]⟩

/-- `Dequeue` locks; on an empty queue it returns `(0, false)` and leaves the
queue as it was; otherwise it removes the head `sq.queue[0]`, keeps
`sq.queue[1:]`, and returns `(head, true)`.  The returned pair and the
post-state of the receiver are both made explicit. -/
def SafeQueue.Dequeue (sq : SafeQueue) : (Int × Bool) × SafeQueue :=
  match sq.queue with
  | [] => ((0, false), sq)
  | item :: rest => ((item, true), ⟨rest⟩)

/-- The `producer` goroutine enqueues each of its items in order. -/
def producerRun (sq : SafeQueue) (items : List Int) : SafeQueue :=
  items.foldl SafeQueue.Enqueue sq

/-- The `consumer` goroutine repeatedly calls `Dequeue` and stops at the
first `ok = false`; it returns the list of consumed items.  `Dequeue`
reports `false` exactly when the queue is empty, and a successful `Dequeue`
shortens the queue, so the loop terminates once the producer is done. -/
def SafeQueue.consume (sq : SafeQueue) : List Int :=
  if sq.queue = [] then []
  else sq.Dequeue.1.1 :: sq.Dequeue.2.consume
termination_by sq.queue.length
decreasing_by
  rcases sq with ⟨q⟩
  cases q with
  | nil => simp_all
  | cons a rest => simp [SafeQueue.Dequeue]

/-! ## ReadHeavyStruct (concurrency-mutexes.go, lines 174-232) -/

/-- `ReadHeavyStruct` holds a `map[string]string` guarded by a
`sync.RWMutex`.  A Go map reference may be nil (the zero value) or an
initialised table; we model the table as a partial function. -/
structure ReadHeavyStruct where
  data : Option (String → Option String)

/-- The zero value `ReadHeavyStruct{}`: the `data` map is nil. -/
def ReadHeavyStruct.zero : ReadHeavyStruct := ⟨none⟩

/-- The construction used by `TestRWMutex`:
`ReadHeavyStruct{data: make(map[string]string)}`. -/
def ReadHeavyStruct.mkEmpty : ReadHeavyStruct := ⟨some fun _ => none⟩

/-- `Read` takes the read lock and does `val, exists := r.data[key]`.
Reading a Go map, even a nil one, never faults: a missing key yields the
zero value `""` and `exists = false`. -/
def ReadHeavyStruct.Read (r : ReadHeavyStruct) (key : String) : String × Bool :=
  match r.data with
  | none => ("", false)
  | some m =>
    match m key with
    | none => ("", false)
    | some v => (v, true)

/-- `Write` takes the write lock and does `r.data[key] = value`.  Assigning
to an entry of a nil map is a runtime panic in Go, modelled as `.error`;
on an initialised map the assignment updates exactly that key. -/
def ReadHeavyStruct.Write (r : ReadHeavyStruct) (key value : String) :
    Except String ReadHeavyStruct :=
  match r.data with
  | none => .error "assignment to entry in nil map"
  | some m => .ok ⟨some fun k => if k = key then some value else m k⟩

/-! ## Generator pattern (concurrency patterns file, lines 15-24)

`generatorWithBoring(msg)` starts a goroutine running
`for i := 0; ; i++ { c <- fmt.Sprintf("%s %d", msg, i); time.Sleep(... rand.Intn(1e3) ...) }`
and returns the unbuffered channel `c`.  The channel carries the iteration's
message; the loop state is the counter `i`. -/

/-- The message sent on iteration with counter `i` (a Go `int`):
`fmt.Sprintf("%s %d", msg, i)` — `%d` prints the signed decimal value. -/
def generatorSend (msg : String) (i : Int) : String :=
  msg ++ " " ++ Int.repr i

/-- `i++` at the end of the loop iteration; the `int` addition wraps at
`2^63`. -/
def generatorNext (i : Int) : Int := wrapInt64 (i + 1)

/-- The message handed off on the `n`-th further send when the loop's counter
currently holds `i`: iterate the loop body `n` times, then send. -/
def generatorLoopFrom (msg : String) (i : Int) : Nat → String
  | 0 => generatorSend msg i
  | n + 1 => generatorLoopFrom msg (generatorNext i) n

/-- The `n`-th message received from the channel returned by
`generatorWithBoring(msg)`: the loop starts at `i = 0`. -/
def generatorWithBoring (msg : String) (n : Nat) : String :=
  generatorLoopFrom msg 0 n

/-- `rand.Intn(n)` returns a pseudo-random integer in `[0, n)`.  The PRNG is
modelled as an arbitrary stream `rng` of naturals, reduced mod `n`; `k`
indexes the call site (the loop iteration). -/
def randIntn (rng : Nat → Nat) (k n : Nat) : Nat :=
  rng k % n

/-- The sleep inserted after the `k`-th send, in milliseconds:
`time.Sleep(time.Millisecond * time.Duration(rand.Intn(1e3)))`. -/
def generatorDelayMs (rng : Nat → Nat) (k : Nat) : Nat :=
  randIntn rng k 1000

/-! ## Fan-in pattern (concurrency patterns file, lines 38-51)

`fanIn(input1, input2)` makes an output channel `c`, spawns one forwarding
goroutine per input — each runs `for { c <- <-inputN }` — and returns `c`.
With finite input streams, each forwarder copies its stream to `c` in order
and then blocks forever on the exhausted input.  An execution is a schedule
saying which forwarder completes its next receive-and-forward; a step by a
forwarder whose input is exhausted never produces output, so the outputs of
a complete run are exactly those of a schedule in which every step succeeds
and both inputs are drained. -/

/-- Run `fanIn` under a schedule: `true` steps the forwarder of `in1`,
`false` the forwarder of `in2`.  Returns the merged output when the
schedule drains both inputs exactly, `none` when it steps a blocked
forwarder or stops early. -/
def fanInRun : List Bool → List String → List String → Option (List String)
  | [], [], [] => some []
  | true :: sch, a :: as, bs => (fanInRun sch as bs).map fun out => a :: out
  | false :: sch, as, b :: bs => (fanInRun sch as bs).map fun out => b :: out
  | _, _, _ => none

/-- The source `fanIn` has exactly two channel parameters `input1, input2`;
applied to a list of input streams it is defined exactly when the list has
two elements, and then merges them as `fanInRun` does. -/
def fanInOfStreams (inputs : List (List String)) :
    Option (List Bool → Option (List String)) :=
  match inputs with
  | [in1, in2] => some fun sch => fanInRun sch in1 in2
  | _ => none

/-- `fanIn` spawns one forwarding goroutine per input parameter: two
`go func` blocks appear in its body. -/
def fanInForwarderCount : Nat := 2

/-! ## Helper lemmas -/

/-- Wrapping is the identity on values already in the `int` range. -/
theorem wrapInt64_eq_self (x : Int) (h0 : -(2 ^ 63) ≤ x) (h1 : x < 2 ^ 63) :
    wrapInt64 x = x := by
  unfold wrapInt64
  omega

/-- While the counter stays below `2^63`, each scheduled `Increment` adds
one to it without wrapping. -/
theorem runIncrements_value_of_lt {n : Nat} (sch : List (Fin n)) (c : SafeCounter)
    (h0 : 0 ≤ c.value) (h : c.value + sch.length < 2 ^ 63) :
    (runIncrements sch c).Value = c.value + sch.length := by
  induction sch generalizing c with
  | nil => simp [runIncrements, SafeCounter.Value]
  | cons t rest ih =>
      have hlt : c.value + 1 < 2 ^ 63 := by
        simp only [List.length_cons] at h
        push_cast at h
        omega
      have hinc : c.Increment.value = c.value + 1 := by
        rw [SafeCounter.Increment]
        exact wrapInt64_eq_self _ (by omega) hlt
      rw [runIncrements, ih c.Increment (by omega) ?hrange]
      case hrange =>
        rw [hinc]
        simp only [List.length_cons] at h
        push_cast at h ⊢
        omega
      rw [hinc]
      simp only [List.length_cons]
      push_cast
      ring

/-- Running a concatenated schedule runs the two halves in order. -/
theorem runIncrements_append {n : Nat} (l1 l2 : List (Fin n)) (c : SafeCounter) :
    runIncrements (l1 ++ l2) c = runIncrements l2 (runIncrements l1 c) := by
  induction l1 generalizing c with
  | nil => rfl
  | cons t rest ih => rw [List.cons_append, runIncrements, runIncrements, ih]

/-- The length of a list over `Fin n` is the sum of its element counts. -/
theorem length_eq_sum_count {n : Nat} (sch : List (Fin n)) :
    sch.length = ∑ t : Fin n, sch.count t := by
  induction sch with
  | nil => simp
  | cons a rest ih =>
      have hsplit : ∀ t : Fin n,
          (a :: rest).count t = rest.count t + if t = a then 1 else 0 := by
        intro t
        by_cases h : t = a
        · subst h; simp [List.count_cons]
        · simp [List.count_cons, h]
      simp only [hsplit]
      rw [Finset.sum_add_distrib, ← ih]
      simp

/-- Enqueueing a list of items appends them, in order, to the tail. -/
theorem producerRun_queue (sq : SafeQueue) (items : List Int) :
    (producerRun sq items).queue = sq.queue ++ items := by
  induction items generalizing sq with
  | nil => simp [producerRun]
  | cons a rest ih =>
      show (producerRun (sq.Enqueue a) rest).queue = _
      rw [ih]
      simp [SafeQueue.Enqueue]

/-- The consumer loop drains the stored sequence front to back. -/
theorem consume_mk (q : List Int) : (SafeQueue.mk q).consume = q := by
  induction q with
  | nil => rw [SafeQueue.consume]; simp
  | cons a rest ih =>
      rw [SafeQueue.consume]
      simp [SafeQueue.Dequeue, ih]

/-! ## Claims -/

/-- **C1 counterexample**: `Value = N × M` does not hold for all `N` and
`M` — with `N = 1` task performing `M = 2^63` increments (a complete
schedule: the single task appears exactly `2^63` times), the 64-bit counter
wraps and the final `Value()` is `-2^63`, not `N × M = 2^63`. -/
theorem safeCounter_overflow_counterexample :
    (∀ t : Fin 1, (List.replicate (2 ^ 63) (0 : Fin 1)).count t = 2 ^ 63) ∧
    (runIncrements (List.replicate (2 ^ 63) (0 : Fin 1)) SafeCounter.init).Value ≠
      ((1 : Nat) : Int) * ((2 ^ 63 : Nat) : Int) := by
  constructor
  · intro t
    rw [Fin.fin_one_eq_zero t]
    exact List.count_replicate_self ..
  · have hsplit : List.replicate (2 ^ 63) (0 : Fin 1) =
        List.replicate (2 ^ 63 - 1) (0 : Fin 1) ++ [0] := by
      rw [← List.replicate_succ']
      congr 1
    rw [hsplit, runIncrements_append]
    have h1 : (runIncrements (List.replicate (2 ^ 63 - 1) (0 : Fin 1))
        SafeCounter.init).value = 2 ^ 63 - 1 := by
      have h := runIncrements_value_of_lt
        (List.replicate (2 ^ 63 - 1) (0 : Fin 1)) SafeCounter.init
        le_rfl ?hrange
      case hrange =>
        show (0 : Int) + ((List.replicate (2 ^ 63 - 1) (0 : Fin 1)).length : Int) < 2 ^ 63
        rw [List.length_replicate]
        push_cast
      rw [SafeCounter.Value] at h
      rw [h, List.length_replicate, SafeCounter.init]
      push_cast
    rw [runIncrements, runIncrements, SafeCounter.Value, SafeCounter.Increment, h1]
    unfold wrapInt64
    intro hfalse
    push_cast at hfalse

/-- **C1 amended**: for `N` concurrent tasks each calling
`SafeCounter.Increment` `M` times on the same counter starting at 0, with
`N × M` below the `int` wrap-around bound `2^63`, the final `Value()`
equals `N × M` exactly — no lost updates.  Because `Increment` holds the
mutex for its whole body, a concurrent execution is a schedule of atomic
increments in which each of the `N` tasks appears exactly `M` times, in
any order. -/
theorem safeCounter_no_lost_updates {N : Nat} (M : Nat) (sch : List (Fin N))
    (hcomplete : ∀ t : Fin N, sch.count t = M)
    (hrange : (N : Int) * M < 2 ^ 63) :
    (runIncrements sch SafeCounter.init).Value = (N : Int) * M := by
  have hlen : sch.length = N * M := by
    rw [length_eq_sum_count]
    simp [hcomplete, Finset.sum_const, Finset.card_univ, mul_comm]
  have h := runIncrements_value_of_lt sch SafeCounter.init le_rfl ?hrange
  case hrange =>
    show (0 : Int) + (sch.length : Int) < 2 ^ 63
    rw [hlen]
    push_cast at hrange ⊢
    omega
  rw [h, hlen, SafeCounter.init]
  push_cast
  ring

/-- Witness for C1: two tasks, two increments each, interleaved; final value
`2 × 2 = 4`. -/
theorem safeCounter_no_lost_updates_witness :
    (runIncrements ([0, 1, 1, 0] : List (Fin 2)) SafeCounter.init).Value = (2 : Int) * 2 :=
  safeCounter_no_lost_updates 2 [0, 1, 1, 0] (by decide) (by norm_num)

/-- **C2**: `SafeQueue` is FIFO — `Enqueue` appends the item at the tail of
the stored sequence, `Dequeue` removes and returns the head, and a producer
enqueuing `[1,2,3,4,5]` followed by a consumer draining the queue dequeues
exactly `[1,2,3,4,5]` in that order. -/
theorem safeQueue_fifo :
    (∀ (sq : SafeQueue) (item : Int), (sq.Enqueue item).queue = sq.queue ++ [item]) ∧
    (∀ (item : Int) (rest : List Int),
        (SafeQueue.mk (item :: rest)).Dequeue = ((item, true), ⟨rest⟩)) ∧
    (producerRun SafeQueue.init [1, 2, 3, 4, 5]).consume = [1, 2, 3, 4, 5] := by
  refine ⟨fun sq item => rfl, fun item rest => rfl, ?_⟩
  have h : producerRun SafeQueue.init [1, 2, 3, 4, 5] = SafeQueue.mk [1, 2, 3, 4, 5] := by
    have := producerRun_queue SafeQueue.init [1, 2, 3, 4, 5]
    rcases hq : producerRun SafeQueue.init [1, 2, 3, 4, 5] with ⟨q⟩
    rw [hq] at this
    simp [SafeQueue.init] at this
    simp [this]
  rw [h, consume_mk]

/-- **C3**: absence is a boolean, never an error — `Dequeue` on an empty
`SafeQueue` returns `(0, false)` without blocking and leaves the queue
unchanged, and `Read` on a key absent from the store returns the zero-value
string with `found = false`. -/
theorem absence_signalled_by_boolean :
    (∀ sq : SafeQueue, sq.queue = [] → sq.Dequeue = ((0, false), sq)) ∧
    (SafeQueue.init.Dequeue = ((0, false), SafeQueue.init)) ∧
    (∀ (r : ReadHeavyStruct) (m : String → Option String) (key : String),
        r.data = some m → m key = none → r.Read key = ("", false)) := by
  refine ⟨?_, rfl, ?_⟩
  · rintro ⟨q⟩ h
    simp only at h
    subst h
    rfl
  · rintro ⟨d⟩ m key hd hk
    simp only at hd
    subst hd
    simp [ReadHeavyStruct.Read, hk]

/-- Witness for C3: the fresh queue and a missing key of the demo store. -/
theorem absence_signalled_by_boolean_witness :
    SafeQueue.init.Dequeue = ((0, false), SafeQueue.init) ∧
    ReadHeavyStruct.mkEmpty.Read "missing" = ("", false) :=
  ⟨absence_signalled_by_boolean.1 SafeQueue.init rfl,
   absence_signalled_by_boolean.2.2 ReadHeavyStruct.mkEmpty (fun _ => none) "missing" rfl rfl⟩

/-- **C4**: read-over-write — on a store with an initialised map, after
`Write k v` the read `Read k` returns `(v, true)`, and after
`Write k v1; Write k v2` the last write wins: `Read k = (v2, true)`. -/
theorem keyedStore_read_over_write (r : ReadHeavyStruct)
    (m : String → Option String) (hm : r.data = some m) (k v1 v2 : String) :
    ∃ r1 r2 : ReadHeavyStruct,
      r.Write k v1 = .ok r1 ∧ r1.Read k = (v1, true) ∧
      r1.Write k v2 = .ok r2 ∧ r2.Read k = (v2, true) := by
  rcases r with ⟨d⟩
  simp only at hm
  subst hm
  refine ⟨_, _, rfl, ?_, rfl, ?_⟩ <;> simp [ReadHeavyStruct.Read, ReadHeavyStruct.Write]

/-- Witness for C4: the demo store, key `"foo"`, values `"v1"` then `"v2"`. -/
theorem keyedStore_read_over_write_witness :
    ∃ r1 r2 : ReadHeavyStruct,
      ReadHeavyStruct.mkEmpty.Write "foo" "v1" = .ok r1 ∧ r1.Read "foo" = ("v1", true) ∧
      r1.Write "foo" "v2" = .ok r2 ∧ r2.Read "foo" = ("v2", true) :=
  keyedStore_read_over_write ReadHeavyStruct.mkEmpty (fun _ => none) rfl "foo" "v1" "v2"

/-- **C9**: `Write` on the zero-value `ReadHeavyStruct` panics with an
assignment to an entry in a nil map; under the precondition that the data
map has been initialised — as the demo constructor `make(map[string]string)`
does — `Write` succeeds. -/
theorem write_nil_map_panics :
    (∀ k v : String,
        ReadHeavyStruct.zero.Write k v = .error "assignment to entry in nil map") ∧
    (∀ (r : ReadHeavyStruct) (m : String → Option String) (k v : String),
        r.data = some m → ∃ r', r.Write k v = .ok r') ∧
    ReadHeavyStruct.mkEmpty.data.isSome = true := by
  refine ⟨fun k v => rfl, ?_, rfl⟩
  rintro ⟨d⟩ m k v hd
  simp only at hd
  subst hd
  exact ⟨_, rfl⟩

/-- Witness for C9: writing to the demo store succeeds. -/
theorem write_nil_map_panics_witness :
    ∃ r', ReadHeavyStruct.mkEmpty.Write "foo" "v" = .ok r' :=
  write_nil_map_panics.2.1 ReadHeavyStruct.mkEmpty (fun _ => none) "foo" "v" rfl

/-- **C10**: frame property of `Write` — a successful `Write k v` changes
only the mapping at `k`: each other key reads the same `(value, found)` pair
afterwards as before. -/
theorem keyedStore_write_frame (r r' : ReadHeavyStruct) (k v : String)
    (hw : r.Write k v = .ok r') (kx : String) (hne : kx ≠ k) :
    r'.Read kx = r.Read kx := by
  rcases r with ⟨d⟩
  cases d with
  | none => simp [ReadHeavyStruct.Write] at hw
  | some m =>
      simp only [ReadHeavyStruct.Write, Except.ok.injEq] at hw
      subst hw
      simp [ReadHeavyStruct.Read, hne]

/-- While the counter stays below `2^63`, the generator loop does not wrap:
the `n`-th send from counter `i` carries counter `i + n`. -/
theorem generatorLoopFrom_eq (msg : String) (i : Int) (n : Nat)
    (h0 : 0 ≤ i) (h : i + n < 2 ^ 63) :
    generatorLoopFrom msg i n = generatorSend msg (i + n) := by
  induction n generalizing i with
  | zero => simp [generatorLoopFrom]
  | succ n ih =>
      have hnext : generatorNext i = i + 1 := by
        rw [generatorNext]
        refine wrapInt64_eq_self _ (by omega) ?_
        push_cast at h
        omega
      rw [generatorLoopFrom, hnext, ih (i + 1) (by omega) ?hrange]
      case hrange =>
        push_cast at h ⊢
        omega
      have harg : i + 1 + (n : Int) = i + ((n : Nat) + 1 : Nat) := by
        push_cast
        ring
      rw [harg]

/-- At the send where the counter reaches `2^63`, the 64-bit increment wraps
to `-2^63`, and the message printed carries the negative counter. -/
theorem generatorLoopFrom_wrap (msg : String) (i : Int) (n : Nat)
    (h0 : 0 ≤ i) (hi : i < 2 ^ 63) (hn : i + n = 2 ^ 63) :
    generatorLoopFrom msg i n = msg ++ " " ++ Int.repr (-(2 ^ 63)) := by
  induction n generalizing i with
  | zero =>
      exfalso
      push_cast at hn
      omega
  | succ n ih =>
      rw [generatorLoopFrom]
      by_cases hlast : i + 1 < 2 ^ 63
      · have hnext : generatorNext i = i + 1 := by
          rw [generatorNext]
          exact wrapInt64_eq_self _ (by omega) hlast
        rw [hnext, ih (i + 1) (by omega) hlast ?hrange]
        case hrange =>
          push_cast at hn ⊢
          omega
      · have hn0 : n = 0 := by
          push_cast at hn
          omega
        subst hn0
        have hnext : generatorNext i = -(2 ^ 63) := by
          have hi1 : i + 1 = 2 ^ 63 := by
            push_cast at hn
            omega
          rw [generatorNext, hi1]
          unfold wrapInt64
          omega
        rw [hnext]
        rfl

/-- Everything a valid fan-in schedule can output: the merge has the length
of both inputs together, keeps each input as a subsequence (per-source
relative order), and carries every message with its multiplicity. -/
theorem fanInRun_spec (sch : List Bool) (in1 in2 out : List String)
    (h : fanInRun sch in1 in2 = some out) :
    out.length = in1.length + in2.length ∧
    in1.Sublist out ∧ in2.Sublist out ∧
    ∀ s : String, out.count s = in1.count s + in2.count s := by
  induction sch generalizing in1 in2 out with
  | nil =>
      cases in1 with
      | cons a as => simp [fanInRun] at h
      | nil =>
          cases in2 with
          | cons b bs => simp [fanInRun] at h
          | nil =>
              simp [fanInRun] at h
              subst h
              simp
  | cons c sch ih =>
      cases c with
      | true =>
          cases in1 with
          | nil => simp [fanInRun] at h
          | cons a as =>
              rw [fanInRun] at h
              rcases Option.map_eq_some'.1 h with ⟨out', hrun, rfl⟩
              obtain ⟨hlen, hs1, hs2, hc⟩ := ih as in2 out' hrun
              refine ⟨by simp [hlen]; omega, hs1.cons₂ a, hs2.cons a, ?_⟩
              intro s
              simp [List.count_cons, hc s]
              omega
      | false =>
          cases in2 with
          | nil => simp [fanInRun] at h
          | cons b bs =>
              rw [fanInRun] at h
              rcases Option.map_eq_some'.1 h with ⟨out', hrun, rfl⟩
              obtain ⟨hlen, hs1, hs2, hc⟩ := ih in1 bs out' hrun
              refine ⟨by simp [hlen]; omega, hs1.cons b, hs2.cons₂ b, ?_⟩
              intro s
              simp [List.count_cons, hc s]
              omega

/-- **C5**: fan-in merge completeness and per-source order — for two finite
sources of `K` messages each, every complete merged output has exactly
`2 K` messages, contains every message of each source (with multiplicity),
and keeps each source's messages in their original relative order; the
interleaving between sources is whatever the schedule chose. -/
theorem fanIn_merge_complete (K : Nat) (in1 in2 : List String)
    (h1 : in1.length = K) (h2 : in2.length = K)
    (sch : List Bool) (out : List String)
    (hrun : fanInRun sch in1 in2 = some out) :
    out.length = 2 * K ∧ in1.Sublist out ∧ in2.Sublist out ∧
    ∀ s : String, out.count s = in1.count s + in2.count s := by
  obtain ⟨hlen, hs1, hs2, hc⟩ := fanInRun_spec sch in1 in2 out hrun
  exact ⟨by omega, hs1, hs2, hc⟩

/-- Witness for C5: `K = 2`, sources `["a0","a1"]` and `["b0","b1"]`, the
alternating schedule, merged output `["a0","b0","a1","b1"]`. -/
theorem fanIn_merge_complete_witness :
    (["a0", "b0", "a1", "b1"] : List String).length = 2 * 2 ∧
    (["a0", "a1"] : List String).Sublist ["a0", "b0", "a1", "b1"] ∧
    (["b0", "b1"] : List String).Sublist ["a0", "b0", "a1", "b1"] ∧
    ∀ s : String, (["a0", "b0", "a1", "b1"] : List String).count s =
      (["a0", "a1"] : List String).count s + (["b0", "b1"] : List String).count s :=
  fanIn_merge_complete 2 ["a0", "a1"] ["b0", "b1"] rfl rfl
    [true, false, true, false] ["a0", "b0", "a1", "b1"] rfl

/-- **C6 counterexample**: the source `fanIn` is not variadic — it has
exactly two channel parameters, so it cannot be applied to three input
streams even though `2 ≤ 3`. -/
theorem fanIn_not_variadic :
    ¬ ∀ inputs : List (List String), 2 ≤ inputs.length →
        (fanInOfStreams inputs).isSome = true := by
  intro h
  have h3 := h [[], [], []] (by norm_num)
  simp [fanInOfStreams] at h3

/-- **C6 amended**: `fanIn` accepts exactly two input streams — applied to
`[in1, in2]` it returns the merged-stream handle, it is defined for no
other number of inputs, and it spawns one forwarding goroutine per input,
two in total. -/
theorem fanIn_exactly_two_streams :
    (∀ in1 in2 : List String,
        fanInOfStreams [in1, in2] = some fun sch => fanInRun sch in1 in2) ∧
    (∀ inputs : List (List String),
        (fanInOfStreams inputs).isSome = true → inputs.length = 2) ∧
    fanInForwarderCount = 2 := by
  refine ⟨fun in1 in2 => rfl, ?_, rfl⟩
  intro inputs h
  rcases inputs with _ | ⟨i1, _ | ⟨i2, _ | ⟨i3, rest⟩⟩⟩
  · simp [fanInOfStreams] at h
  · simp [fanInOfStreams] at h
  · rfl
  · simp [fanInOfStreams] at h

/-- Witness for C6: a two-stream input is accepted, and indeed has length 2. -/
theorem fanIn_exactly_two_streams_witness :
    ([["a"], ["b"]] : List (List String)).length = 2 :=
  fanIn_exactly_two_streams.2.1 [["a"], ["b"]] rfl

/-- **C7 counterexample**: the message sequence is not
`label ++ " " ++ decimal n` for every `n` — at the `2^63`-th send the Go
`int` counter has wrapped to `-2^63` and `%d` prints a negative number, not
`decimal (2^63)`. -/
theorem generator_wrap_counterexample :
    generatorWithBoring "boring!" (2 ^ 63) ≠ "boring!" ++ " " ++ Nat.repr (2 ^ 63) := by
  rw [generatorWithBoring,
    generatorLoopFrom_wrap "boring!" 0 (2 ^ 63) le_rfl (by norm_num) (by push_cast)]
  decide

/-- **C7 amended**: for every label and every `n < 2^63`, the generator's
`n`-th message is `label ++ " " ++ decimal n` — the sequence number starts
at 0 and goes up by exactly one with each successive send until the 64-bit
counter wraps at the `2^63`-th send. -/
theorem generator_message_sequence (msg : String) (n : Nat) (h : (n : Int) < 2 ^ 63) :
    generatorWithBoring msg n = msg ++ " " ++ Nat.repr n := by
  rw [generatorWithBoring, generatorLoopFrom_eq msg 0 n le_rfl (by omega)]
  rw [generatorSend, zero_add]
  rfl

/-- Witness for C7: the source demo's label at `n = 3`. -/
theorem generator_message_sequence_witness :
    generatorWithBoring "boring!" 3 = "boring!" ++ " " ++ Nat.repr 3 :=
  generator_message_sequence "boring!" 3 (by norm_num)

/-- **C8**: the delay inserted between consecutive sends is a whole number
of milliseconds `d` with `0 ≤ d ≤ 999`, whatever the PRNG produced. -/
theorem generator_delay_bound (rng : Nat → Nat) (k : Nat) :
    0 ≤ generatorDelayMs rng k ∧ generatorDelayMs rng k ≤ 999 := by
  refine ⟨Nat.zero_le _, ?_⟩
  have h : rng k % 1000 < 1000 := Nat.mod_lt _ (by norm_num)
  simp only [generatorDelayMs, randIntn]
  omega

/-- Witness for C10: after writing `"foo"` on the demo store, `"bar"` still
reads `("", false)`. -/
theorem keyedStore_write_frame_witness :
    (ReadHeavyStruct.mk (some fun kk => if kk = "foo" then some "v" else none)).Read "bar" =
      ReadHeavyStruct.mkEmpty.Read "bar" :=
  keyedStore_write_frame ReadHeavyStruct.mkEmpty
    (ReadHeavyStruct.mk (some fun kk => if kk = "foo" then some "v" else none))
    "foo" "v" rfl "bar" (by decide)
